import Mathlib

/-!
Verification of the MedAgent resilient external-API access layer.

This file gives a shallow embedding, in Lean 4, of the operational core of
the MedAgent repository and proves the stated properties of:

* `src/utils/retry_handler.py` — retry classification, exponential backoff
  with jitter, and the `retry_on_failure` loop;
* `src/utils/rate_limiter.py` — the `TokenBucket` rate limiter;
* `src/tools/base_tool.py` — the `ToolResult` envelope, the in-memory TTL
  cache (`_get_cache_key`, `_get_from_cache`, `_save_to_cache`) and the
  per-call orchestrator `_execute_with_monitoring`.

Modelling conventions:

* Python values are modelled by `PyVal`; the Python `None` singleton is the
  constructor `PyVal.none`, and the Python idiom `x is not None` is
  `x.isNone = false`.
* Python floats (times, token counts, backoffs) are modelled by `Rat`.
* Wall-clock time (`time.time()`) is modelled by an explicit stream of
  readings (`Clock`); each call to `time.time()` pops the next reading.
* Raising an exception is modelled by `Except.error` carrying a `PyExc`
  (exception class, message, and optionally an attached HTTP response
  status, mirroring `requests` exceptions).
* A wrapped network operation is a state-passing function
  `σ → Except PyExc PyVal × σ`; the state `σ` stands for whatever the
  operation touches (for the rate-limited adapters, the token bucket).
-/

/-- Model of a Python runtime value as far as the access layer inspects it:
the layer only ever distinguishes `None` and lists (for `len(...)`), and
treats every other value as an unanalyzed atom. -/
inductive PyVal where
  | none
  | bool (b : Bool)
  | int (n : Int)
  | str (s : String)
  | list (xs : List PyVal)

/-- Python's `x is None` test. -/
def PyVal.isNone : PyVal → Bool
  | PyVal.none => true
  | _ => false

/-- Python's `len(x) if isinstance(x, list) else 1`, used for the
`results_count` metadata field in `base_tool.py` lines 178 and 212. -/
def pyLenOr1 : PyVal → Nat
  | PyVal.list xs => xs.length
  | _ => 1

/-- Exception classes that appear in the access layer. `connectionError`,
`timeout` and `httpError` model the `requests.exceptions` classes of the same
names (all subclasses of `RequestException`); `other` covers every class
outside the `requests` hierarchy (for example `TypeError`). -/
inductive ExcClass where
  | connectionError
  | timeout
  | httpError
  | requestException
  | jsonDecodeError
  | valueError
  | keyError
  | other (name : String)
deriving DecidableEq

/-- Python's `type(error).__name__` for the modelled classes. -/
def ExcClass.pyName : ExcClass → String
  | ExcClass.connectionError => "ConnectionError"
  | ExcClass.timeout => "Timeout"
  | ExcClass.httpError => "HTTPError"
  | ExcClass.requestException => "RequestException"
  | ExcClass.jsonDecodeError => "JSONDecodeError"
  | ExcClass.valueError => "ValueError"
  | ExcClass.keyError => "KeyError"
  | ExcClass.other n => n

/-- Python's `isinstance(e, RequestException)`: in `requests`,
`ConnectionError`, `Timeout`, `HTTPError` and `JSONDecodeError` are all
subclasses of `RequestException`. -/
def ExcClass.isRequestException : ExcClass → Bool
  | ExcClass.connectionError => true
  | ExcClass.timeout => true
  | ExcClass.httpError => true
  | ExcClass.requestException => true
  | ExcClass.jsonDecodeError => true
  | _ => false

/-- A raised Python exception: its class, its `str(...)` message, and (for
`requests` exceptions that carry one) the attached response's HTTP status
code. `response = none` models both `not hasattr(e, "response")` and
`e.response is None`. -/
structure PyExc where
  cls : ExcClass
  msg : String
  response : Option Nat := Option.none
deriving DecidableEq

/-- Strict lexicographic comparison of two character lists by Unicode code
point, which is exactly how Python compares `str` values. -/
def charListLtB : List Char → List Char → Bool
  | [], [] => false
  | [], _ :: _ => true
  | _ :: _, [] => false
  | a :: as, b :: bs =>
    decide (a.toNat < b.toNat) || (decide (a.toNat = b.toNat) && charListLtB as bs)

/-- Non-strict lexicographic comparison of two character lists by Unicode
code point. -/
def charListLeB : List Char → List Char → Bool
  | [], _ => true
  | _ :: _, [] => false
  | a :: as, b :: bs =>
    decide (a.toNat < b.toNat) || (decide (a.toNat = b.toNat) && charListLeB as bs)

/-- Python's `s1 < s2` on strings. -/
def strLtB (a b : String) : Bool := charListLtB a.data b.data

/-- Python's `s1 <= s2` on strings. -/
def strLeB (a b : String) : Bool := charListLeB a.data b.data

/-- Python's tuple comparison `(k1, v1) <= (k2, v2)` for string pairs, the
order used by `sorted(params.items())` in `BaseTool._get_cache_key`
(`base_tool.py` line 96). -/
def pairLeB (x y : String × String) : Bool :=
  strLtB x.1 y.1 || (decide (x.1 = y.1) && strLeB x.2 y.2)

/-- Propositional form of `pairLeB`, for use with `List.insertionSort`. -/
def pairLe (x y : String × String) : Prop := pairLeB x y = true

instance : DecidableRel pairLe := fun x y => instDecidableEqBool (pairLeB x y) true

/-- Python's `sorted(params.items())`: the items of a `dict` (distinct keys)
sorted by the lexicographic order on `(key, value)` pairs. Because the order
is total and antisymmetric, any correct sort produces the same list Python's
`sorted` does. -/
def sortedParams (params : List (String × String)) : List (String × String) :=
  List.insertionSort pairLe params

/-- Settings default `MAX_RETRIES` (`config/settings.py`). -/
def MAX_RETRIES : Nat := 3

/-- Settings default `RETRY_BACKOFF_BASE` (`config/settings.py`). -/
def RETRY_BACKOFF_BASE : Nat := 2

/-- Settings default `RETRY_BACKOFF_MAX` (`config/settings.py`). -/
def RETRY_BACKOFF_MAX : Nat := 60

/-- Settings default `CACHE_TTL`, in seconds (`config/settings.py`). -/
def CACHE_TTL : Rat := 3600

/-- Settings default `ENABLE_CACHE` (`config/settings.py`). -/
def ENABLE_CACHE : Bool := true

/-- Python's `x or default` applied to an optional integer argument: both
`None` and `0` (falsy) are replaced by the default. This is how
`retry_on_failure` and `calculate_backoff` resolve their optional arguments
(`retry_handler.py` lines 62-63 and 121-122). -/
def orDefault (x : Option Nat) (d : Nat) : Nat :=
  match x with
  | Option.none => d
  | some n => if n = 0 then d else n

/-- `RETRYABLE_STATUS_CODES` from `retry_handler.py` lines 26-32. -/
def RETRYABLE_STATUS_CODES : List Nat := [429, 500, 502, 503, 504]

/-- `NON_RETRYABLE_STATUS_CODES` from `retry_handler.py` lines 35-42. -/
def NON_RETRYABLE_STATUS_CODES : List Nat := [400, 401, 403, 404, 405, 422]

/-- `calculate_backoff` from `retry_handler.py` lines 45-72. The value of
`random.random()` (uniform in `[0, 1)`) is passed in explicitly as `rand`.
The exponential `base ** attempt` and the cap `min(..., max_backoff)` are
computed on integers exactly as in the source; the jitter scaling
`backoff * (0.5 + random.random() * 0.5)` is rational arithmetic. -/
def calculate_backoff (attempt : Nat) (base max_backoff : Option Nat)
    (jitter : Bool) (rand : Rat) : Rat :=
  let b := orDefault base RETRY_BACKOFF_BASE
  let m := orDefault max_backoff RETRY_BACKOFF_MAX
  let backoff : Rat := ((min (b ^ attempt) m : Nat) : Rat)
  if jitter then backoff * (1/2 + rand * (1/2)) else backoff

/-- `is_retryable_error` from `retry_handler.py` lines 75-94: network errors
(`ConnectionError`, `Timeout`) are always retryable; a `RequestException`
with an attached response is retryable iff its status code is in
`RETRYABLE_STATUS_CODES`; everything else is not retryable. -/
def is_retryable_error (e : PyExc) : Bool :=
  match e.cls with
  | ExcClass.connectionError => true
  | ExcClass.timeout => true
  | _ =>
    if e.cls.isRequestException then
      match e.response with
      | some status_code => decide (status_code ∈ RETRYABLE_STATUS_CODES)
      | Option.none => false
    else false

/-- The default `retryable_exceptions` tuple of `retry_on_failure`
(`retry_handler.py` lines 100-104): `isinstance(e, (ConnectionError,
Timeout, RequestException))`, which collapses to membership in the
`RequestException` hierarchy. -/
def default_retryable_exceptions (e : PyExc) : Bool := e.cls.isRequestException

/-- Observable outcome of one run of a `retry_on_failure`-wrapped function:
the returned value or the exception that escaped (`outcome`), how many times
the wrapped operation was invoked (`calls`), and the list of backoff sleeps
performed, in order (`sleeps`). -/
structure RetryTrace where
  outcome : Except PyExc PyVal
  calls : Nat
  sleeps : List Rat

/-- One pass of the `for attempt in range(max_retries + 1)` loop of
`retry_on_failure` (`retry_handler.py` lines 126-165), starting at attempt
number `attempt` with `fuel = max_retries - attempt` iterations left after
the current one. The operation `op` maps each attempt number to its result;
`caught` is the `except retryable_exceptions` filter. An uncaught or
non-retryable exception, and a retryable one on the final iteration
(`fuel = 0`, i.e. `attempt = max_retries`, where the source logs instead of
sleeping, falls out of the loop and re-raises `last_exception`), all escape
to the caller after exactly one further invocation; otherwise the loop
sleeps the jittered backoff and continues with the next attempt. -/
def retryAux (op : Nat → Except PyExc PyVal) (caught : PyExc → Bool)
    (backoff_base : Nat) (rand : Nat → Rat) : Nat → Nat → RetryTrace
  | 0, attempt =>
    match op attempt with
    | Except.ok v => { outcome := Except.ok v, calls := 1, sleeps := [] }
    | Except.error e => { outcome := Except.error e, calls := 1, sleeps := [] }
  | Nat.succ fuel, attempt =>
    match op attempt with
    | Except.ok v => { outcome := Except.ok v, calls := 1, sleeps := [] }
    | Except.error e =>
      if caught e = false then
        { outcome := Except.error e, calls := 1, sleeps := [] }
      else if is_retryable_error e = false then
        { outcome := Except.error e, calls := 1, sleeps := [] }
      else
        let backoff :=
          calculate_backoff attempt (some backoff_base) Option.none true (rand attempt)
        let t := retryAux op caught backoff_base rand fuel (attempt + 1)
        { outcome := t.outcome, calls := t.calls + 1, sleeps := backoff :: t.sleeps }

/-- `retry_on_failure` from `retry_handler.py` lines 97-168, applied to one
call of the wrapped function: resolves the optional `max_retries` and
`backoff_base` via Python's falsy `or`, then runs the attempt loop. -/
def retry_on_failure (max_retries backoff_base : Option Nat)
    (caught : PyExc → Bool) (op : Nat → Except PyExc PyVal)
    (rand : Nat → Rat) : RetryTrace :=
  retryAux op caught (orDefault backoff_base RETRY_BACKOFF_BASE) rand
    (orDefault max_retries MAX_RETRIES) 0

/-- `TokenBucket` state from `rate_limiter.py` lines 18-36. -/
structure TokenBucket where
  rate : Rat
  capacity : Rat
  tokens : Rat
  last_update : Rat

/-- `TokenBucket.__init__` (`rate_limiter.py` lines 25-36): capacity
defaults to the rate via Python's falsy `or` (both `None` and `0.0` fall
back), the bucket starts full, and `last_update` is the creation time. -/
def TokenBucket.init (rate : Rat) (capacity : Option Rat) (now : Rat) : TokenBucket :=
  let cap := match capacity with
    | Option.none => rate
    | some c => if c = 0 then rate else c
  { rate := rate, capacity := cap, tokens := cap, last_update := now }

/-- `TokenBucket.consume` (`rate_limiter.py` lines 38-61): lazily refill
`min(capacity, tokens + elapsed * rate)`, then debit `req` tokens iff at
least that many are present. Returns the `True`/`False` result and the
updated bucket. -/
def TokenBucket.consume (b : TokenBucket) (now : Rat) (req : Nat) : Bool × TokenBucket :=
  let elapsed := now - b.last_update
  let toks := min b.capacity (b.tokens + elapsed * b.rate)
  if (req : Rat) ≤ toks then
    (true, { b with tokens := toks - (req : Rat), last_update := now })
  else
    (false, { b with tokens := toks, last_update := now })

/-- The sequence of bucket states observed after each operation of a
sequence of `consume` calls, each given as (time of the call, tokens
requested). -/
def runConsume (b : TokenBucket) : List (Rat × Nat) → List TokenBucket
  | [] => []
  | op :: ops =>
    let b' := (b.consume op.1 op.2).2
    b' :: runConsume b' ops

/-- The token-bucket invariant claimed by the spec: `0 ≤ tokens ≤ capacity`. -/
def TokenBucket.inv (b : TokenBucket) : Prop :=
  0 ≤ b.tokens ∧ b.tokens ≤ b.capacity

/-- The `metadata` dictionary attached to a `ToolResult`
(`base_tool.py` lines 172-179, 206-213 and 234-239). The `cached` and
`results_count` keys are present only on success results. -/
structure ToolMetadata where
  query : String
  timestamp : String
  tool : String
  latency_ms : Int
  cached : Option Bool := Option.none
  results_count : Option Nat := Option.none

/-- `ToolResult` from `base_tool.py` lines 18-33: the standardized result
envelope. `data = PyVal.none` models the dataclass default `data=None`. -/
structure ToolResult where
  success : Bool
  data : PyVal := PyVal.none
  metadata : Option ToolMetadata := Option.none
  error : Option String := Option.none

/-- `BaseTool.handle_errors` (`base_tool.py` lines 271-293): map an
exception to a user-facing message via the fixed `error_mapping` table,
falling back to `f"{error_type}: {error_msg}"`. -/
def handle_errors (e : PyExc) : String :=
  let error_type := e.cls.pyName
  let error_msg := e.msg
  if error_type = "ConnectionError" then
    "Failed to connect to API. Please check your internet connection."
  else if error_type = "Timeout" then
    "API request timed out. Please try again."
  else if error_type = "HTTPError" then
    "API returned an error: " ++ error_msg
  else if error_type = "JSONDecodeError" then
    "Failed to parse API response. The API may be experiencing issues."
  else if error_type = "ValueError" then
    "Invalid input: " ++ error_msg
  else if error_type = "KeyError" then
    "Missing expected data in API response: " ++ error_msg
  else
    error_type ++ ": " ++ error_msg

/-- A stream of `time.time()` readings. -/
abbrev Clock := List Rat

/-- One call to `time.time()`: pop the next reading (an exhausted stream
reads 0, which no theorem relies on). -/
def tick : Clock → Rat × Clock
  | [] => (0, [])
  | t :: ts => (t, ts)

/-- The `BaseTool.cache` dictionary `{cache_key: (timestamp, data)}`
(`base_tool.py` line 80), as an insertion-ordered association list with
distinct keys. -/
abbrev CacheMap := List (String × Rat × PyVal)

/-- Python `dict` lookup `cache[key]` (first matching key). -/
def dictGet : CacheMap → String → Option (Rat × PyVal)
  | [], _ => Option.none
  | e :: rest, key => if e.1 = key then some e.2 else dictGet rest key

/-- Python `del cache[key]` (removes the binding of `key`, if any). -/
def dictDel : CacheMap → String → CacheMap
  | [], _ => []
  | e :: rest, key => if e.1 = key then rest else e :: dictDel rest key

/-- Python `cache[key] = v`: replace in place if present, else append. -/
def dictSet : CacheMap → String → Rat × PyVal → CacheMap
  | [], key, v => [(key, v)]
  | e :: rest, key, v => if e.1 = key then (key, v) :: rest else e :: dictSet rest key v

/-- Python's `"&".join(strings)`. -/
def joinAmp : List String → String
  | [] => ""
  | [x] => x
  | x :: y :: rest => x ++ "&" ++ joinAmp (y :: rest)

/-- `BaseTool._get_cache_key` (`base_tool.py` lines 84-98):
`f"{method}:" + "&".join(f"{k}={v}" for k, v in sorted(params.items()))`.
Parameter values enter the key through `f"{v}"`, so they are modelled
already stringified. -/
def get_cache_key (method : String) (params : List (String × String)) : String :=
  let param_str := joinAmp ((sortedParams params).map (fun kv => kv.1 ++ "=" ++ kv.2))
  method ++ ":" ++ param_str

/-- `BaseTool._get_from_cache` (`base_tool.py` lines 100-122). Returns the
Python value the method returns (`PyVal.none` both for a miss and for a
stored `None`), the possibly-updated cache (lazy eviction of an expired
entry), and the advanced clock (`time.time()` is read only when the key is
present and caching is enabled). -/
def get_from_cache (enable : Bool) (ttl : Rat) (cache : CacheMap)
    (cache_key : String) (clock : Clock) : PyVal × CacheMap × Clock :=
  if enable = false then (PyVal.none, cache, clock)
  else
    match dictGet cache cache_key with
    | some entry =>
      let s := tick clock
      if s.1 - entry.1 < ttl then (entry.2, cache, s.2)
      else (PyVal.none, dictDel cache cache_key, s.2)
    | Option.none => (PyVal.none, cache, clock)

/-- `BaseTool._save_to_cache` (`base_tool.py` lines 124-133): store
`(time.time(), data)` under the key when caching is enabled, else do
nothing. -/
def save_to_cache (enable : Bool) (cache : CacheMap) (cache_key : String)
    (data : PyVal) (clock : Clock) : CacheMap × Clock :=
  if enable then
    let s := tick clock
    (dictSet cache cache_key (s.1, data), s.2)
  else (cache, clock)

/-- Python's `int(x)` on a float: truncation toward zero. -/
def pyInt (q : Rat) : Int := if 0 ≤ q then ⌊q⌋ else ⌈q⌉

/-- Everything one call of `_execute_with_monitoring` produces: the returned
`ToolResult`, the cache afterwards, the state threaded through the wrapped
operation, how many times the wrapped operation was invoked, and the
remaining clock. -/
structure EnvOut (σ : Type) where
  result : ToolResult
  cache : CacheMap
  fnState : σ
  fnCalls : Nat
  clock : Clock

/-- The `except Exception` arm of `_execute_with_monitoring`
(`base_tool.py` lines 216-240): measure latency, format the error with
`handle_errors`, and return a failure `ToolResult` whose metadata has no
`cached` or `results_count` keys. -/
def envErrorOut {σ : Type} (toolName nowIso query : String) (start_time : Rat)
    (e : PyExc) (cache : CacheMap) (st : σ) (clock : Clock) : EnvOut σ :=
  let s1 := tick clock
  let latency_ms := pyInt ((s1.1 - start_time) * 1000)
  let md : ToolMetadata :=
    { query := query, timestamp := nowIso, tool := toolName, latency_ms := latency_ms }
  let r : ToolResult :=
    { success := false, data := PyVal.none, error := some (handle_errors e), metadata := some md }
  { result := r, cache := cache, fnState := st, fnCalls := 1, clock := s1.2 }

/-- `BaseTool._execute_with_monitoring` (`base_tool.py` lines 135-240).
In source order: read `start_time`, build the cache key from
`(method_name, query=query, **kwargs)`, try the cache; on a non-`None`
cached value return a success result with `cached: True` without touching
the wrapped operation; otherwise invoke `func`, pass its result through
`parse_results`, save the parsed value, and return a success result with
`cached: False`; any exception raised by `func` or `parse_results` is
caught and converted to a failure result — the function is total and always
returns a `ToolResult`. The timestamp string `datetime.utcnow().isoformat()`
is passed in as `nowIso` (no theorem inspects it). -/
def execute_with_monitoring {σ : Type} (enable : Bool) (ttl : Rat)
    (toolName nowIso : String) (method_name query : String)
    (kwargs : List (String × String))
    (func : σ → Except PyExc PyVal × σ)
    (parse_results : PyVal → Except PyExc PyVal)
    (cache : CacheMap) (st : σ) (clock : Clock) : EnvOut σ :=
  let s0 := tick clock
  let start_time := s0.1
  let cache_key := get_cache_key method_name (("query", query) :: kwargs)
  let g := get_from_cache enable ttl cache cache_key s0.2
  let cached_data := g.1
  let cache1 := g.2.1
  let c2 := g.2.2
  if cached_data.isNone = false then
    let s1 := tick c2
    let latency_ms := pyInt ((s1.1 - start_time) * 1000)
    let md : ToolMetadata :=
      { query := query, timestamp := nowIso, tool := toolName, latency_ms := latency_ms,
        cached := some true, results_count := some (pyLenOr1 cached_data) }
    let r : ToolResult :=
      { success := true, data := cached_data, error := Option.none, metadata := some md }
    { result := r, cache := cache1, fnState := st, fnCalls := 0, clock := s1.2 }
  else
    match func st with
    | (Except.error e, st') =>
      envErrorOut toolName nowIso query start_time e cache1 st' c2
    | (Except.ok raw, st') =>
      match parse_results raw with
      | Except.error e =>
        envErrorOut toolName nowIso query start_time e cache1 st' c2
      | Except.ok parsed =>
        let sv := save_to_cache enable cache1 cache_key parsed c2
        let s1 := tick sv.2
        let latency_ms := pyInt ((s1.1 - start_time) * 1000)
        let md : ToolMetadata :=
          { query := query, timestamp := nowIso, tool := toolName, latency_ms := latency_ms,
            cached := some false, results_count := some (pyLenOr1 parsed) }
        let r : ToolResult :=
          { success := true, data := parsed, error := Option.none, metadata := some md }
        { result := r, cache := sv.1, fnState := st', fnCalls := 1, clock := s1.2 }

/-- `joinAmp` at the level of character lists, used to reason about the
shape of cache keys. -/
def joinAmpL : List (List Char) → List Char
  | [] => []
  | [x] => x
  | x :: y :: rest => x ++ '&' :: joinAmpL (y :: rest)

/-- Character lists used in cache keys that contain neither of the two
separators `&` and `=` that `_get_cache_key` inserts. -/
def sepFree (s : String) : Prop := ('&' ∈ s.data → False) ∧ ('=' ∈ s.data → False)

/-- A parameter map all of whose keys and values are separator-free. -/
def goodParams (params : List (String × String)) : Prop :=
  ∀ kv ∈ params, sepFree kv.1 ∧ sepFree kv.2

instance (s : String) : Decidable (sepFree s) := by
  unfold sepFree
  infer_instance

instance (p : List (String × String)) : Decidable (goodParams p) := by
  unfold goodParams
  infer_instance

theorem orDefault_pos {n d : Nat} (h : 1 ≤ n) : orDefault (some n) d = n := by
  unfold orDefault
  exact if_neg (Nat.one_le_iff_ne_zero.mp h)

theorem retryAux_allFail (op : Nat → Except PyExc PyVal) (caught : PyExc → Bool)
    (bb : Nat) (rand : Nat → Rat)
    (hop : ∀ i, ∃ e, op i = Except.error e ∧ caught e = true ∧ is_retryable_error e = true) :
    ∀ fuel attempt, (retryAux op caught bb rand fuel attempt).calls = fuel + 1 ∧
      ∀ e, op (attempt + fuel) = Except.error e →
        (retryAux op caught bb rand fuel attempt).outcome = Except.error e := by
  intro fuel
  induction fuel with
  | zero =>
    intro attempt
    obtain ⟨e, he, hc, hr⟩ := hop attempt
    refine ⟨?_, ?_⟩
    · simp [retryAux, he]
    · intro e' he'
      rw [Nat.add_zero] at he'
      rw [he] at he'
      injection he' with h
      subst h
      simp [retryAux, he]
  | succ fuel ih =>
    intro attempt
    obtain ⟨e, he, hc, hr⟩ := hop attempt
    obtain ⟨ihc, iho⟩ := ih (attempt + 1)
    refine ⟨?_, ?_⟩
    · simp [retryAux, he, hc, hr, ihc]
    · intro e' he'
      have harith : attempt + 1 + fuel = attempt + (fuel + 1) := by omega
      rw [← harith] at he'
      simp [retryAux, he, hc, hr, iho e' he']

/-- C2 (amended): for every `max_retries = N` with `N ≥ 1` and every
operation raising a retryable, caught error on every invocation,
`retry_on_failure` invokes the operation exactly `N + 1` times and then
raises the last observed error itself (the error of attempt `N`), with no
substitution. (For `N = 0` the code deviates, see the counterexample.) -/
theorem retry_exhaustion_exact_calls (N : Nat) (hN : 1 ≤ N) (bb : Option Nat)
    (op : Nat → Except PyExc PyVal) (rand : Nat → Rat)
    (hop : ∀ i, ∃ e, op i = Except.error e ∧ default_retryable_exceptions e = true ∧
      is_retryable_error e = true)
    (eN : PyExc) (hlast : op N = Except.error eN) :
    (retry_on_failure (some N) bb default_retryable_exceptions op rand).calls = N + 1 ∧
    (retry_on_failure (some N) bb default_retryable_exceptions op rand).outcome =
      Except.error eN := by
  obtain ⟨hc, ho⟩ := retryAux_allFail op default_retryable_exceptions
    (orDefault bb RETRY_BACKOFF_BASE) rand hop N 0
  unfold retry_on_failure
  rw [orDefault_pos hN]
  refine ⟨hc, ho eN ?_⟩
  rw [Nat.zero_add]
  exact hlast

theorem retry_exhaustion_exact_calls_witness :
    (retry_on_failure (some 3) Option.none default_retryable_exceptions
        (fun _ => Except.error { cls := ExcClass.connectionError, msg := "down" })
        (fun _ => 0)).calls = 3 + 1 ∧
    (retry_on_failure (some 3) Option.none default_retryable_exceptions
        (fun _ => Except.error { cls := ExcClass.connectionError, msg := "down" })
        (fun _ => 0)).outcome =
      Except.error { cls := ExcClass.connectionError, msg := "down" } :=
  retry_exhaustion_exact_calls 3 (by decide) Option.none
    (fun _ => Except.error { cls := ExcClass.connectionError, msg := "down" })
    (fun _ => 0)
    (fun _ => ⟨{ cls := ExcClass.connectionError, msg := "down" }, rfl, rfl, rfl⟩)
    { cls := ExcClass.connectionError, msg := "down" } rfl

/-- C2 counterexample: the claim says `max_retries = N` always gives
`N + 1` invocations, but for `N = 0` Python's falsy `or`
(`max_retries or settings.MAX_RETRIES`, `retry_handler.py` line 121)
silently replaces 0 by the default 3, so an always-failing retryable
operation is invoked 4 times, not 1. -/
theorem retry_zero_maxretries_counterexample :
    (retry_on_failure (some 0) Option.none default_retryable_exceptions
        (fun _ => Except.error { cls := ExcClass.connectionError, msg := "down" })
        (fun _ => 0)).calls = 4 ∧ 4 ≠ 0 + 1 := by
  refine ⟨rfl, by decide⟩

/-- C3: a protocol-level failure (an exception in the `RequestException`
hierarchy that is neither a connection error nor a timeout) whose attached
status is a non-retryable one — 400, 401, 403, 404, 405, 422 — or is in
neither the retryable nor the non-retryable set, is classified as
non-retryable; `retry_on_failure` invokes the operation exactly once,
performs no backoff sleep, and propagates the error immediately, whatever
the retry budget. -/
theorem non_retryable_fails_fast (mr bb : Option Nat)
    (op : Nat → Except PyExc PyVal) (rand : Nat → Rat) (e : PyExc) (s : Nat)
    (hcls : e.cls = ExcClass.httpError ∨ e.cls = ExcClass.requestException)
    (hresp : e.response = some s)
    (hs : s ∈ NON_RETRYABLE_STATUS_CODES ∨
      (s ∉ RETRYABLE_STATUS_CODES ∧ s ∉ NON_RETRYABLE_STATUS_CODES))
    (h0 : op 0 = Except.error e) :
    is_retryable_error e = false ∧
    (retry_on_failure mr bb default_retryable_exceptions op rand).outcome = Except.error e ∧
    (retry_on_failure mr bb default_retryable_exceptions op rand).calls = 1 ∧
    (retry_on_failure mr bb default_retryable_exceptions op rand).sleeps = [] := by
  have hdisj : ∀ x, x ∈ NON_RETRYABLE_STATUS_CODES → x ∉ RETRYABLE_STATUS_CODES := by decide
  have hnotR : s ∉ RETRYABLE_STATUS_CODES := by
    rcases hs with hmem | ⟨hnot, _⟩
    · exact hdisj s hmem
    · exact hnot
  have hretry : is_retryable_error e = false := by
    rcases hcls with hc | hc <;>
      simp [is_retryable_error, hc, hresp, ExcClass.isRequestException, hnotR]
  have hcaught : default_retryable_exceptions e = true := by
    rcases hcls with hc | hc <;> simp [default_retryable_exceptions, hc, ExcClass.isRequestException]
  have hrun : retry_on_failure mr bb default_retryable_exceptions op rand =
      { outcome := Except.error e, calls := 1, sleeps := [] } := by
    unfold retry_on_failure
    cases hmr : orDefault mr MAX_RETRIES with
    | zero => simp [retryAux, h0]
    | succ k => simp [retryAux, h0, hcaught, hretry]
  exact ⟨hretry, by rw [hrun], by rw [hrun], by rw [hrun]⟩

theorem non_retryable_fails_fast_witness :
    is_retryable_error { cls := ExcClass.httpError, msg := "nf", response := some 404 } = false ∧
    (retry_on_failure Option.none Option.none default_retryable_exceptions
        (fun _ => Except.error { cls := ExcClass.httpError, msg := "nf", response := some 404 })
        (fun _ => 0)).outcome =
      Except.error { cls := ExcClass.httpError, msg := "nf", response := some 404 } ∧
    (retry_on_failure Option.none Option.none default_retryable_exceptions
        (fun _ => Except.error { cls := ExcClass.httpError, msg := "nf", response := some 404 })
        (fun _ => 0)).calls = 1 ∧
    (retry_on_failure Option.none Option.none default_retryable_exceptions
        (fun _ => Except.error { cls := ExcClass.httpError, msg := "nf", response := some 404 })
        (fun _ => 0)).sleeps = [] :=
  non_retryable_fails_fast Option.none Option.none
    (fun _ => Except.error { cls := ExcClass.httpError, msg := "nf", response := some 404 })
    (fun _ => 0)
    { cls := ExcClass.httpError, msg := "nf", response := some 404 } 404
    (Or.inl rfl) rfl (Or.inl (by decide)) rfl

/-- C5: `calculate_backoff` returns `min(base ^ attempt, max_backoff)`
scaled by the jitter factor `0.5 + rand * 0.5`, which lies in `[1/2, 1]`
whenever `rand` is a `random.random()` value in `[0, 1)`; with base 2 and
cap 60 the pre-jitter backoffs for attempts 0, 1, 2, 3 are 1, 2, 4, 8
seconds, and every attempt from 6 on is capped at 60. -/
theorem backoff_growth (a b m : Nat) (hb : 1 ≤ b) (hm : 1 ≤ m)
    (r : Rat) (h0 : 0 ≤ r) (h1 : r < 1) :
    calculate_backoff a (some b) (some m) true r =
      ((min (b ^ a) m : Nat) : Rat) * (1/2 + r * (1/2)) ∧
    (1/2 : Rat) ≤ 1/2 + r * (1/2) ∧ (1/2 : Rat) + r * (1/2) ≤ 1 ∧
    calculate_backoff 0 (some 2) (some 60) false r = 1 ∧
    calculate_backoff 1 (some 2) (some 60) false r = 2 ∧
    calculate_backoff 2 (some 2) (some 60) false r = 4 ∧
    calculate_backoff 3 (some 2) (some 60) false r = 8 ∧
    ∀ a', 6 ≤ a' → calculate_backoff a' (some 2) (some 60) false r = 60 := by
  refine ⟨?_, by linarith, by linarith, ?_, ?_, ?_, ?_, ?_⟩
  · unfold calculate_backoff
    rw [orDefault_pos hb, orDefault_pos hm]
    simp
  · norm_num [calculate_backoff, orDefault]
  · norm_num [calculate_backoff, orDefault]
  · norm_num [calculate_backoff, orDefault]
  · norm_num [calculate_backoff, orDefault]
  · intro a' ha'
    have hcap : min (2 ^ a') 60 = 60 := by
      refine Nat.min_eq_right ?_
      calc (60 : Nat) ≤ 2 ^ 6 := by norm_num
        _ ≤ 2 ^ a' := Nat.pow_le_pow_right (by norm_num) ha'
    norm_num [calculate_backoff, orDefault, hcap]

theorem consume_step_inv (b : TokenBucket) (now : Rat) (req : Nat)
    (hrate : 0 ≤ b.rate) (hinv : b.inv) (hnow : b.last_update ≤ now) :
    ((b.consume now req).2).inv ∧ ((b.consume now req).2).last_update = now ∧
    ((b.consume now req).2).capacity = b.capacity ∧ ((b.consume now req).2).rate = b.rate := by
  obtain ⟨htok0, htokc⟩ := hinv
  have hcap0 : 0 ≤ b.capacity := le_trans htok0 htokc
  have helapsed : 0 ≤ now - b.last_update := by linarith
  have hfill0 : 0 ≤ b.tokens + (now - b.last_update) * b.rate := by
    have := mul_nonneg helapsed hrate
    linarith
  have hmin0 : 0 ≤ min b.capacity (b.tokens + (now - b.last_update) * b.rate) :=
    le_min hcap0 hfill0
  have hminc : min b.capacity (b.tokens + (now - b.last_update) * b.rate) ≤ b.capacity :=
    min_le_left _ _
  by_cases h : (req : Rat) ≤ min b.capacity (b.tokens + (now - b.last_update) * b.rate)
  · have hreq0 : (0 : Rat) ≤ (req : Rat) := Nat.cast_nonneg req
    simp only [TokenBucket.consume, TokenBucket.inv, h, if_true]
    exact ⟨⟨by linarith, by linarith⟩, trivial, trivial, trivial⟩
  · simp only [TokenBucket.consume, TokenBucket.inv, h, if_false]
    exact ⟨⟨hmin0, hminc⟩, trivial, trivial, trivial⟩

/-- C4: along any sequence of `consume` calls observed at non-decreasing
times (each call's `time.time()` reading is at least the bucket's current
`last_update`), a bucket with non-negative rate that starts satisfying
`0 ≤ tokens ≤ capacity` satisfies it after every operation: the lazy refill
caps tokens at capacity, and tokens are debited only when at least the
requested amount is present. -/
theorem token_bucket_invariant (b : TokenBucket) (ops : List (Rat × Nat))
    (hrate : 0 ≤ b.rate) (hinv : b.inv)
    (hchain : List.Chain (fun x y => x ≤ y) b.last_update (ops.map Prod.fst)) :
    ∀ b' ∈ runConsume b ops, b'.inv := by
  induction ops generalizing b with
  | nil => intro b' hb'; simp [runConsume] at hb'
  | cons op ops ih =>
    rw [List.map_cons] at hchain
    rcases hchain with _ | ⟨hle, hchain'⟩
    obtain ⟨hinv', hlast', hcap', hrate'⟩ := consume_step_inv b op.1 op.2 hrate hinv hle
    intro b' hb'
    simp only [runConsume] at hb'
    rcases List.mem_cons.mp hb' with rfl | hmem
    · exact hinv'
    · refine ih (b.consume op.1 op.2).2 ?_ hinv' ?_ b' hmem
      · rw [hrate']
        exact hrate
      · rw [hlast']
        exact hchain'

theorem token_bucket_invariant_witness :
    TokenBucket.inv ((TokenBucket.consume { rate := 1, capacity := 1, tokens := 1, last_update := 0 } 1 1).2) :=
  token_bucket_invariant { rate := 1, capacity := 1, tokens := 1, last_update := 0 }
    [(1, 1)] zero_le_one ⟨zero_le_one, le_refl 1⟩
    (List.Chain.cons zero_le_one List.Chain.nil)
    ((TokenBucket.consume { rate := 1, capacity := 1, tokens := 1, last_update := 0 } 1 1).2)
    (List.Mem.head _)

theorem backoff_growth_witness :
    calculate_backoff 4 (some 2) (some 60) true 0 =
      ((min (2 ^ 4) 60 : Nat) : Rat) * (1/2 + 0 * (1/2)) ∧
    (1/2 : Rat) ≤ 1/2 + 0 * (1/2) ∧ (1/2 : Rat) + 0 * (1/2) ≤ 1 ∧
    calculate_backoff 0 (some 2) (some 60) false 0 = 1 ∧
    calculate_backoff 1 (some 2) (some 60) false 0 = 2 ∧
    calculate_backoff 2 (some 2) (some 60) false 0 = 4 ∧
    calculate_backoff 3 (some 2) (some 60) false 0 = 8 ∧
    ∀ a', 6 ≤ a' → calculate_backoff a' (some 2) (some 60) false 0 = 60 :=
  backoff_growth 4 2 60 (by decide) (by decide) 0 (le_refl 0) (by norm_num)

theorem dictGet_not_mem {c : CacheMap} {k : String}
    (h : k ∉ c.map Prod.fst) : dictGet c k = Option.none := by
  induction c with
  | nil => rfl
  | cons e rest ih =>
    rw [List.map_cons, List.mem_cons] at h
    push_neg at h
    rw [dictGet, if_neg (fun he => h.1 he.symm)]
    exact ih h.2

theorem dictGet_dictDel_self {c : CacheMap} {k : String}
    (h : (c.map Prod.fst).Nodup) : dictGet (dictDel c k) k = Option.none := by
  induction c with
  | nil => rfl
  | cons e rest ih =>
    rw [List.map_cons, List.nodup_cons] at h
    rw [dictDel]
    by_cases he : e.1 = k
    · rw [if_pos he]
      exact dictGet_not_mem (he ▸ h.1)
    · rw [if_neg he, dictGet, if_neg he]
      exact ih h.2

theorem dictGet_dictSet_self (c : CacheMap) (k : String) (v : Rat × PyVal) :
    dictGet (dictSet c k v) k = some v := by
  induction c with
  | nil => simp [dictSet, dictGet]
  | cons e rest ih =>
    rw [dictSet]
    by_cases he : e.1 = k
    · rw [if_pos he, dictGet, if_pos rfl]
    · rw [if_neg he, dictGet, if_neg he]
      exact ih

/-- C6: with caching enabled, `_get_from_cache` returns the stored value of
an entry younger than the TTL and leaves the store unchanged; it returns the
absent value `None` both for a never-stored key (without reading the clock)
and for an entry whose age has reached the TTL, evicting the stale entry
from the store in that same access; and a subsequent `_save_to_cache` for
the evicted key creates a fresh entry carrying the new clock reading as its
timestamp. -/
theorem cache_ttl_roundtrip (ttl : Rat) (cache : CacheMap) (k : String)
    (now : Rat) (rest : Clock) (ts : Rat) (v : PyVal)
    (now2 : Rat) (rest2 : Clock) (v2 : PyVal) :
    (dictGet cache k = Option.none →
      get_from_cache true ttl cache k (now :: rest) = (PyVal.none, cache, now :: rest)) ∧
    (dictGet cache k = some (ts, v) → now - ts < ttl →
      get_from_cache true ttl cache k (now :: rest) = (v, cache, rest)) ∧
    (dictGet cache k = some (ts, v) → ttl ≤ now - ts →
      get_from_cache true ttl cache k (now :: rest) = (PyVal.none, dictDel cache k, rest)) ∧
    ((cache.map Prod.fst).Nodup → dictGet (dictDel cache k) k = Option.none) ∧
    dictGet (save_to_cache true (dictDel cache k) k v2 (now2 :: rest2)).1 k = some (now2, v2) := by
  refine ⟨?_, ?_, ?_, fun h => dictGet_dictDel_self h, ?_⟩
  · intro h
    simp [get_from_cache, h]
  · intro h httl
    simp [get_from_cache, h, tick, httl]
  · intro h httl
    simp [get_from_cache, h, tick, not_lt.mpr httl]
  · simp [save_to_cache, tick, dictGet_dictSet_self]

theorem cache_ttl_roundtrip_witness :
    get_from_cache true 3600 [("k1", (0, PyVal.int 5))] "k1" [1] =
      (PyVal.int 5, [("k1", (0, PyVal.int 5))], []) ∧
    get_from_cache true 3600 [("k1", (0, PyVal.int 5))] "k1" [3600] =
      (PyVal.none, dictDel [("k1", (0, PyVal.int 5))] "k1", []) ∧
    dictGet (save_to_cache true (dictDel [("k1", (0, PyVal.int 5))] "k1") "k1"
      (PyVal.int 6) [5000]).1 "k1" = some (5000, PyVal.int 6) := by
  refine ⟨?_, ?_, ?_⟩
  · exact (cache_ttl_roundtrip 3600 [("k1", (0, PyVal.int 5))] "k1" 1 [] 0 (PyVal.int 5)
      5000 [] (PyVal.int 6)).2.1 rfl (by norm_num)
  · exact (cache_ttl_roundtrip 3600 [("k1", (0, PyVal.int 5))] "k1" 3600 [] 0 (PyVal.int 5)
      5000 [] (PyVal.int 6)).2.2.1 rfl (by norm_num)
  · exact (cache_ttl_roundtrip 3600 [("k1", (0, PyVal.int 5))] "k1" 3600 [] 0 (PyVal.int 5)
      5000 [] (PyVal.int 6)).2.2.2.2

theorem ewm_eq_hit {σ : Type} (enable : Bool) (ttl : Rat) (tn ni mn q : String)
    (kwargs : List (String × String)) (func : σ → Except PyExc PyVal × σ)
    (parse : PyVal → Except PyExc PyVal) (cache : CacheMap) (st : σ) (clock : Clock)
    (hhit : (get_from_cache enable ttl cache (get_cache_key mn (("query", q) :: kwargs))
      (tick clock).2).1.isNone = false) :
    execute_with_monitoring enable ttl tn ni mn q kwargs func parse cache st clock =
      (let g := get_from_cache enable ttl cache (get_cache_key mn (("query", q) :: kwargs))
        (tick clock).2
       let s1 := tick g.2.2
       let md : ToolMetadata :=
         { query := q, timestamp := ni, tool := tn,
           latency_ms := pyInt ((s1.1 - (tick clock).1) * 1000),
           cached := some true, results_count := some (pyLenOr1 g.1) }
       let r : ToolResult :=
         { success := true, data := g.1, error := Option.none, metadata := some md }
       { result := r, cache := g.2.1, fnState := st, fnCalls := 0, clock := s1.2 }) := by
  simp only [execute_with_monitoring, hhit, if_true]

theorem ewm_eq_funcError {σ : Type} (enable : Bool) (ttl : Rat) (tn ni mn q : String)
    (kwargs : List (String × String)) (func : σ → Except PyExc PyVal × σ)
    (parse : PyVal → Except PyExc PyVal) (cache : CacheMap) (st : σ) (clock : Clock)
    (e : PyExc) (st' : σ)
    (hmiss : (get_from_cache enable ttl cache (get_cache_key mn (("query", q) :: kwargs))
      (tick clock).2).1.isNone = true)
    (hf : func st = (Except.error e, st')) :
    execute_with_monitoring enable ttl tn ni mn q kwargs func parse cache st clock =
      (let g := get_from_cache enable ttl cache (get_cache_key mn (("query", q) :: kwargs))
        (tick clock).2
       envErrorOut tn ni q (tick clock).1 e g.2.1 st' g.2.2) := by
  have hne : (get_from_cache enable ttl cache (get_cache_key mn (("query", q) :: kwargs))
      (tick clock).2).1.isNone ≠ false := by
    rw [hmiss]
    decide
  simp only [execute_with_monitoring, if_neg hne, hf]

theorem ewm_eq_parseError {σ : Type} (enable : Bool) (ttl : Rat) (tn ni mn q : String)
    (kwargs : List (String × String)) (func : σ → Except PyExc PyVal × σ)
    (parse : PyVal → Except PyExc PyVal) (cache : CacheMap) (st : σ) (clock : Clock)
    (raw : PyVal) (e : PyExc) (st' : σ)
    (hmiss : (get_from_cache enable ttl cache (get_cache_key mn (("query", q) :: kwargs))
      (tick clock).2).1.isNone = true)
    (hf : func st = (Except.ok raw, st')) (hp : parse raw = Except.error e) :
    execute_with_monitoring enable ttl tn ni mn q kwargs func parse cache st clock =
      (let g := get_from_cache enable ttl cache (get_cache_key mn (("query", q) :: kwargs))
        (tick clock).2
       envErrorOut tn ni q (tick clock).1 e g.2.1 st' g.2.2) := by
  have hne : (get_from_cache enable ttl cache (get_cache_key mn (("query", q) :: kwargs))
      (tick clock).2).1.isNone ≠ false := by
    rw [hmiss]
    decide
  simp only [execute_with_monitoring, if_neg hne, hf, hp]

theorem ewm_eq_parsed {σ : Type} (enable : Bool) (ttl : Rat) (tn ni mn q : String)
    (kwargs : List (String × String)) (func : σ → Except PyExc PyVal × σ)
    (parse : PyVal → Except PyExc PyVal) (cache : CacheMap) (st : σ) (clock : Clock)
    (raw parsed : PyVal) (st' : σ)
    (hmiss : (get_from_cache enable ttl cache (get_cache_key mn (("query", q) :: kwargs))
      (tick clock).2).1.isNone = true)
    (hf : func st = (Except.ok raw, st')) (hp : parse raw = Except.ok parsed) :
    execute_with_monitoring enable ttl tn ni mn q kwargs func parse cache st clock =
      (let g := get_from_cache enable ttl cache (get_cache_key mn (("query", q) :: kwargs))
        (tick clock).2
       let sv := save_to_cache enable g.2.1 (get_cache_key mn (("query", q) :: kwargs)) parsed g.2.2
       let s1 := tick sv.2
       let md : ToolMetadata :=
         { query := q, timestamp := ni, tool := tn,
           latency_ms := pyInt ((s1.1 - (tick clock).1) * 1000),
           cached := some false, results_count := some (pyLenOr1 parsed) }
       let r : ToolResult :=
         { success := true, data := parsed, error := Option.none, metadata := some md }
       { result := r, cache := sv.1, fnState := st', fnCalls := 1, clock := s1.2 }) := by
  have hne : (get_from_cache enable ttl cache (get_cache_key mn (("query", q) :: kwargs))
      (tick clock).2).1.isNone ≠ false := by
    rw [hmiss]
    decide
  simp only [execute_with_monitoring, if_neg hne, hf, hp]

/-- C1 (amended): every call of `_execute_with_monitoring` — the function is
total, so no exception propagates — returns a `ToolResult` in which metadata
is always populated; when `success` is false the error message is populated
and `data` is the absent value `None`; when `success` is true no error is
present, and `data` can be the absent value `None` only in the one case
where the adapter's `parse_results` itself returned `None` (on a cache hit
`data` is always non-`None`). -/
theorem envelope_result_shape {σ : Type} (enable : Bool) (ttl : Rat)
    (tn ni mn q : String) (kwargs : List (String × String))
    (func : σ → Except PyExc PyVal × σ) (parse : PyVal → Except PyExc PyVal)
    (cache : CacheMap) (st : σ) (clock : Clock) :
    ((execute_with_monitoring enable ttl tn ni mn q kwargs func parse cache st
        clock).result.metadata.isSome = true) ∧
    ((execute_with_monitoring enable ttl tn ni mn q kwargs func parse cache st
        clock).result.success = false →
      (execute_with_monitoring enable ttl tn ni mn q kwargs func parse cache st
        clock).result.error.isSome = true ∧
      (execute_with_monitoring enable ttl tn ni mn q kwargs func parse cache st
        clock).result.data = PyVal.none) ∧
    ((execute_with_monitoring enable ttl tn ni mn q kwargs func parse cache st
        clock).result.success = true →
      (execute_with_monitoring enable ttl tn ni mn q kwargs func parse cache st
        clock).result.error = Option.none) ∧
    ((execute_with_monitoring enable ttl tn ni mn q kwargs func parse cache st
        clock).result.success = true →
      (execute_with_monitoring enable ttl tn ni mn q kwargs func parse cache st
        clock).result.data.isNone = true →
      ∃ raw st', func st = (Except.ok raw, st') ∧ parse raw = Except.ok PyVal.none) := by
  by_cases hhit : (get_from_cache enable ttl cache
      (get_cache_key mn (("query", q) :: kwargs)) (tick clock).2).1.isNone = false
  · rw [ewm_eq_hit enable ttl tn ni mn q kwargs func parse cache st clock hhit]
    simp [hhit]
  · have hmiss : (get_from_cache enable ttl cache
        (get_cache_key mn (("query", q) :: kwargs)) (tick clock).2).1.isNone = true := by
      revert hhit
      cases (get_from_cache enable ttl cache
        (get_cache_key mn (("query", q) :: kwargs)) (tick clock).2).1.isNone <;> simp
    rcases hfs : func st with ⟨fr, st'⟩
    cases fr with
    | error e =>
      rw [ewm_eq_funcError enable ttl tn ni mn q kwargs func parse cache st clock e st' hmiss hfs]
      simp [envErrorOut]
    | ok raw =>
      cases hp : parse raw with
      | error e =>
        rw [ewm_eq_parseError enable ttl tn ni mn q kwargs func parse cache st clock
          raw e st' hmiss hfs hp]
        simp [envErrorOut]
      | ok parsed =>
        rw [ewm_eq_parsed enable ttl tn ni mn q kwargs func parse cache st clock
          raw parsed st' hmiss hfs hp]
        refine ⟨rfl, by simp, fun _ => rfl, ?_⟩
        intro _ hnone
        change parsed.isNone = true at hnone
        cases parsed with
        | none => exact ⟨raw, st', rfl, hp⟩
        | bool b => simp [PyVal.isNone] at hnone
        | int n => simp [PyVal.isNone] at hnone
        | str s2 => simp [PyVal.isNone] at hnone
        | list xs => simp [PyVal.isNone] at hnone

theorem envelope_result_shape_witness :
    ((execute_with_monitoring (σ := Unit) false 3600 "T" "ts" "m" "q" []
        (fun s => (Except.ok (PyVal.int 0), s)) (fun _ => Except.error
          { cls := ExcClass.valueError, msg := "bad" }) [] () [0, 1]).result.metadata.isSome
      = true) :=
  (envelope_result_shape false 3600 "T" "ts" "m" "q" []
    (fun s => (Except.ok (PyVal.int 0), s))
    (fun _ => Except.error { cls := ExcClass.valueError, msg := "bad" }) [] () [0, 1]).1

/-- C1 counterexample: the claim also asserts that `data` is populated
whenever `success` is true, but when the adapter's `parse_results` returns
`None` (ChEMBL's `parse_results` returns `raw_data` verbatim, which can be
`None`), the envelope returns `success = True` with `data = None`. -/
theorem envelope_success_without_data :
    ((execute_with_monitoring (σ := Unit) false 3600 "T" "ts" "m" "q" []
        (fun s => (Except.ok (PyVal.int 0), s)) (fun _ => Except.ok PyVal.none)
        [] () [0, 1]).result.success = true) ∧
    ((execute_with_monitoring (σ := Unit) false 3600 "T" "ts" "m" "q" []
        (fun s => (Except.ok (PyVal.int 0), s)) (fun _ => Except.ok PyVal.none)
        [] () [0, 1]).result.data = PyVal.none) :=
  ⟨rfl, rfl⟩

/-- C8: when the cache lookup finds an unexpired entry whose stored value is
not `None`, the envelope returns a success result flagged `cached = True`
carrying the stored value, invokes the wrapped request function zero times,
leaves the state threaded through the request function (for the adapters,
the rate-limit token bucket) untouched, and leaves the cache unchanged. -/
theorem cache_hit_frame {σ : Type} (ttl : Rat) (tn ni mn q : String)
    (kwargs : List (String × String)) (func : σ → Except PyExc PyVal × σ)
    (parse : PyVal → Except PyExc PyVal) (cache : CacheMap) (st : σ)
    (t0 now t1 : Rat) (rest : Clock) (ts : Rat) (v : PyVal)
    (hget : dictGet cache (get_cache_key mn (("query", q) :: kwargs)) = some (ts, v))
    (hv : v.isNone = false) (httl : now - ts < ttl) :
    ((execute_with_monitoring true ttl tn ni mn q kwargs func parse cache st
        (t0 :: now :: t1 :: rest)).fnCalls = 0) ∧
    ((execute_with_monitoring true ttl tn ni mn q kwargs func parse cache st
        (t0 :: now :: t1 :: rest)).fnState = st) ∧
    ((execute_with_monitoring true ttl tn ni mn q kwargs func parse cache st
        (t0 :: now :: t1 :: rest)).cache = cache) ∧
    ((execute_with_monitoring true ttl tn ni mn q kwargs func parse cache st
        (t0 :: now :: t1 :: rest)).result.success = true) ∧
    ((execute_with_monitoring true ttl tn ni mn q kwargs func parse cache st
        (t0 :: now :: t1 :: rest)).result.data = v) ∧
    ((execute_with_monitoring true ttl tn ni mn q kwargs func parse cache st
        (t0 :: now :: t1 :: rest)).result.error = Option.none) ∧
    ((execute_with_monitoring true ttl tn ni mn q kwargs func parse cache st
        (t0 :: now :: t1 :: rest)).result.metadata = some
      { query := q, timestamp := ni, tool := tn,
        latency_ms := pyInt ((t1 - t0) * 1000),
        cached := some true, results_count := some (pyLenOr1 v) }) := by
  have hg : get_from_cache true ttl cache (get_cache_key mn (("query", q) :: kwargs))
      (now :: t1 :: rest) = (v, cache, t1 :: rest) := by
    simp [get_from_cache, hget, tick, httl]
  have hhit : (get_from_cache true ttl cache (get_cache_key mn (("query", q) :: kwargs))
      (tick (t0 :: now :: t1 :: rest)).2).1.isNone = false := by
    rw [show (tick (t0 :: now :: t1 :: rest)).2 = now :: t1 :: rest from rfl, hg]
    exact hv
  rw [ewm_eq_hit true ttl tn ni mn q kwargs func parse cache st (t0 :: now :: t1 :: rest) hhit]
  simp [hg, tick]

theorem cache_hit_frame_witness :
    ((execute_with_monitoring true 3600 "T" "ts" "m" "q" []
        (fun b : TokenBucket => (Except.ok (PyVal.int 1), (b.consume 5 1).2))
        (fun r => Except.ok r)
        [(get_cache_key "m" [("query", "q")], (0, PyVal.int 7))]
        { rate := 3, capacity := 3, tokens := 3, last_update := 0 }
        (1 :: 2 :: 3 :: [])).fnCalls = 0) ∧
    ((execute_with_monitoring true 3600 "T" "ts" "m" "q" []
        (fun b : TokenBucket => (Except.ok (PyVal.int 1), (b.consume 5 1).2))
        (fun r => Except.ok r)
        [(get_cache_key "m" [("query", "q")], (0, PyVal.int 7))]
        { rate := 3, capacity := 3, tokens := 3, last_update := 0 }
        (1 :: 2 :: 3 :: [])).fnState =
      { rate := 3, capacity := 3, tokens := 3, last_update := 0 }) := by
  have h := cache_hit_frame (σ := TokenBucket) 3600 "T" "ts" "m" "q" []
    (fun b : TokenBucket => (Except.ok (PyVal.int 1), (b.consume 5 1).2))
    (fun r => Except.ok r)
    [(get_cache_key "m" [("query", "q")], (0, PyVal.int 7))]
    { rate := 3, capacity := 3, tokens := 3, last_update := 0 }
    1 2 3 [] 0 (PyVal.int 7) (by rw [dictGet, if_pos rfl]) rfl (by norm_num)
  exact ⟨h.1, h.2.1⟩

/-- C10: a cache entry whose stored value is `None` is indistinguishable, at
the envelope boundary, from a miss: even within the TTL the envelope
re-invokes the wrapped operation (one invocation) and never reports
`cached = True` in the metadata. -/
theorem cached_none_treated_as_miss {σ : Type} (ttl : Rat) (tn ni mn q : String)
    (kwargs : List (String × String)) (func : σ → Except PyExc PyVal × σ)
    (parse : PyVal → Except PyExc PyVal) (cache : CacheMap) (st : σ)
    (t0 now : Rat) (rest : Clock) (ts : Rat)
    (hget : dictGet cache (get_cache_key mn (("query", q) :: kwargs)) = some (ts, PyVal.none))
    (httl : now - ts < ttl) :
    ((execute_with_monitoring true ttl tn ni mn q kwargs func parse cache st
        (t0 :: now :: rest)).fnCalls = 1) ∧
    (∀ md, (execute_with_monitoring true ttl tn ni mn q kwargs func parse cache st
        (t0 :: now :: rest)).result.metadata = some md → md.cached ≠ some true) := by
  have hmiss : (get_from_cache true ttl cache (get_cache_key mn (("query", q) :: kwargs))
      (tick (t0 :: now :: rest)).2).1.isNone = true := by
    rw [show (tick (t0 :: now :: rest)).2 = now :: rest from rfl]
    simp [get_from_cache, hget, tick, httl, PyVal.isNone]
  rcases hfs : func st with ⟨fr, st'⟩
  cases fr with
  | error e =>
    rw [ewm_eq_funcError true ttl tn ni mn q kwargs func parse cache st
      (t0 :: now :: rest) e st' hmiss hfs]
    refine ⟨rfl, ?_⟩
    intro md hmd hc
    change some _ = some md at hmd
    injection hmd with hmd
    rw [← hmd] at hc
    exact Option.noConfusion hc
  | ok raw =>
    cases hp : parse raw with
    | error e =>
      rw [ewm_eq_parseError true ttl tn ni mn q kwargs func parse cache st
        (t0 :: now :: rest) raw e st' hmiss hfs hp]
      refine ⟨rfl, ?_⟩
      intro md hmd hc
      change some _ = some md at hmd
      injection hmd with hmd
      rw [← hmd] at hc
      exact Option.noConfusion hc
    | ok parsed =>
      rw [ewm_eq_parsed true ttl tn ni mn q kwargs func parse cache st
        (t0 :: now :: rest) raw parsed st' hmiss hfs hp]
      refine ⟨rfl, ?_⟩
      intro md hmd hc
      change some _ = some md at hmd
      injection hmd with hmd
      rw [← hmd] at hc
      injection hc with hc
      exact Bool.noConfusion hc

theorem cached_none_treated_as_miss_witness :
    ((execute_with_monitoring (σ := Unit) true 3600 "T" "ts" "m" "q" []
        (fun s => (Except.ok (PyVal.int 3), s)) (fun r => Except.ok r)
        [(get_cache_key "m" [("query", "q")], (0, PyVal.none))] ()
        (1 :: 2 :: 3 :: [])).fnCalls = 1) :=
  (cached_none_treated_as_miss (σ := Unit) 3600 "T" "ts" "m" "q" []
    (fun s => (Except.ok (PyVal.int 3), s)) (fun r => Except.ok r)
    [(get_cache_key "m" [("query", "q")], (0, PyVal.none))] ()
    1 2 [3] 0 (by rw [dictGet, if_pos rfl]) (by norm_num)).1

theorem pyval_isNone_none : PyVal.isNone PyVal.none = true := rfl

/-- C9: caching is a pure optimization. For a pure wrapped operation (same
result on every invocation, no state effect), two identical envelope calls
run with caching disabled and the same two calls run with caching enabled
produce the same success flag, data and error on each call (only latency
and the `cached` metadata flag may differ); with caching disabled both calls
invoke the operation (one invocation each, call count 2); with caching
enabled, if the first call parsed to a non-`None` value and the second call
looks the entry up within the TTL, the second call invokes the operation
zero times and returns data identical to the first call's. -/
theorem caching_pure_optimization {σ : Type} (ttl : Rat) (tn ni mn q : String)
    (kwargs : List (String × String)) (func : σ → Except PyExc PyVal × σ)
    (fr : Except PyExc PyVal) (hfunc : ∀ s, func s = (fr, s))
    (parse : PyVal → Except PyExc PyVal) (st : σ)
    (a0 a1 a2 b0 b1 b2 t0 t1 t2 u0 u1 u2 : Rat)
    (d1 d2 e1 e2 : EnvOut σ)
    (hd1 : d1 = execute_with_monitoring false ttl tn ni mn q kwargs func parse [] st [a0, a1, a2])
    (hd2 : d2 = execute_with_monitoring false ttl tn ni mn q kwargs func parse
      d1.cache d1.fnState [b0, b1, b2])
    (he1 : e1 = execute_with_monitoring true ttl tn ni mn q kwargs func parse [] st [t0, t1, t2])
    (he2 : e2 = execute_with_monitoring true ttl tn ni mn q kwargs func parse
      e1.cache e1.fnState [u0, u1, u2]) :
    (d1.result.success = e1.result.success ∧ d1.result.data = e1.result.data ∧
      d1.result.error = e1.result.error) ∧
    (d2.result.success = e2.result.success ∧ d2.result.data = e2.result.data ∧
      d2.result.error = e2.result.error) ∧
    (d1.fnCalls = 1 ∧ d2.fnCalls = 1) ∧
    (∀ raw v, fr = Except.ok raw → parse raw = Except.ok v → v.isNone = false →
      u1 - t1 < ttl → e2.fnCalls = 0 ∧ e2.result.data = e1.result.data) := by
  subst hd1 hd2 he1 he2
  cases fr with
  | error e =>
    refine ⟨?_, ?_, ?_, ?_⟩
    · simp [execute_with_monitoring, get_from_cache, tick, hfunc, envErrorOut, dictGet, PyVal.isNone]
    · simp [execute_with_monitoring, get_from_cache, tick, hfunc, envErrorOut, dictGet, PyVal.isNone]
    · simp [execute_with_monitoring, get_from_cache, tick, hfunc, envErrorOut, dictGet, PyVal.isNone]
    · intro raw v hfr
      exact absurd hfr (by simp)
  | ok raw =>
    cases hp : parse raw with
    | error ex =>
      refine ⟨?_, ?_, ?_, ?_⟩
      · simp [execute_with_monitoring, get_from_cache, tick, hfunc, hp, envErrorOut, dictGet, PyVal.isNone]
      · simp [execute_with_monitoring, get_from_cache, tick, hfunc, hp, envErrorOut, dictGet, PyVal.isNone]
      · simp [execute_with_monitoring, get_from_cache, tick, hfunc, hp, envErrorOut, dictGet, PyVal.isNone]
      · intro raw' v hfr hpv
        injection hfr with hraw
        subst hraw
        rw [hp] at hpv
        exact Except.noConfusion hpv
    | ok v =>
      refine ⟨?_, ?_, ?_, ?_⟩
      · simp [execute_with_monitoring, get_from_cache, save_to_cache, tick, hfunc, hp, dictGet, dictSet, PyVal.isNone]
      · by_cases hvn : v.isNone = true
        · by_cases httl : u1 - t1 < ttl <;>
            simp [execute_with_monitoring, get_from_cache, save_to_cache, dictGet, dictSet,
              tick, hfunc, hp, hvn, httl, envErrorOut, pyval_isNone_none]
        · have hvf : v.isNone = false := by revert hvn; cases v.isNone <;> simp
          by_cases httl : u1 - t1 < ttl <;>
            simp [execute_with_monitoring, get_from_cache, save_to_cache, dictGet, dictSet,
              tick, hfunc, hp, hvf, httl, envErrorOut, pyval_isNone_none]
      · simp [execute_with_monitoring, get_from_cache, save_to_cache, tick, hfunc, hp, dictGet, dictSet, PyVal.isNone]
      · intro raw' v' hfr hpv hvf httl
        injection hfr with hraw
        subst hraw
        rw [hp] at hpv
        injection hpv with hv
        subst hv
        constructor <;>
          simp [execute_with_monitoring, get_from_cache, save_to_cache, dictGet, dictSet,
            tick, hfunc, hp, hvf, httl, pyval_isNone_none]

theorem caching_pure_optimization_witness :
    (let d1 := execute_with_monitoring (σ := Unit) false 3600 "T" "ts" "m" "q" []
        (fun s => (Except.ok (PyVal.int 2), s)) (fun r => Except.ok r) [] () [0, 1, 2]
     let d2 := execute_with_monitoring false 3600 "T" "ts" "m" "q" []
        (fun s => (Except.ok (PyVal.int 2), s)) (fun r => Except.ok r)
        d1.cache d1.fnState [3, 4, 5]
     d1.fnCalls = 1 ∧ d2.fnCalls = 1) := by
  have h := caching_pure_optimization (σ := Unit) 3600 "T" "ts" "m" "q" []
    (fun s => (Except.ok (PyVal.int 2), s)) (Except.ok (PyVal.int 2)) (fun s => rfl)
    (fun r => Except.ok r) () 0 1 2 3 4 5 0 1 2 3 4 5 _ _ _ _ rfl rfl rfl rfl
  exact h.2.2.1

theorem string_data_inj {a b : String} (h : a.data = b.data) : a = b := by
  cases a
  cases b
  exact congrArg String.mk h

theorem sdata_append (a b : String) : (a ++ b).data = a.data ++ b.data := by
  cases a
  cases b
  rfl

theorem char_toNat_inj {a b : Char} (h : a.toNat = b.toNat) : a = b :=
  Char.ext (UInt32.ext h)

theorem clt_not_sym : ∀ a b : List Char,
    charListLtB a b = true → charListLtB b a = true → False := by
  intro a
  induction a with
  | nil =>
    intro b h1 h2
    cases b with
    | nil => simp [charListLtB] at h1
    | cons c cs => simp [charListLtB] at h2
  | cons x xs ih =>
    intro b h1 h2
    cases b with
    | nil => simp [charListLtB] at h1
    | cons y ys =>
      simp only [charListLtB, Bool.or_eq_true, Bool.and_eq_true, decide_eq_true_eq] at h1 h2
      rcases h1 with h1 | ⟨he1, h1⟩
      · rcases h2 with h2 | ⟨he2, h2⟩
        · omega
        · omega
      · rcases h2 with h2 | ⟨he2, h2⟩
        · omega
        · exact ih ys h1 h2

theorem clt_trans : ∀ a b c : List Char,
    charListLtB a b = true → charListLtB b c = true → charListLtB a c = true := by
  intro a
  induction a with
  | nil =>
    intro b c h1 h2
    cases b with
    | nil => simp [charListLtB] at h1
    | cons y ys =>
      cases c with
      | nil => simp [charListLtB] at h2
      | cons z zs => simp [charListLtB]
  | cons x xs ih =>
    intro b c h1 h2
    cases b with
    | nil => simp [charListLtB] at h1
    | cons y ys =>
      cases c with
      | nil => simp [charListLtB] at h2
      | cons z zs =>
        simp only [charListLtB, Bool.or_eq_true, Bool.and_eq_true, decide_eq_true_eq] at h1 h2 ⊢
        rcases h1 with h1 | ⟨he1, h1⟩
        · rcases h2 with h2 | ⟨he2, h2⟩
          · exact Or.inl (by omega)
          · exact Or.inl (by omega)
        · rcases h2 with h2 | ⟨he2, h2⟩
          · exact Or.inl (by omega)
          · exact Or.inr ⟨by omega, ih ys zs h1 h2⟩

theorem clt_trichotomy : ∀ a b : List Char,
    charListLtB a b = true ∨ a = b ∨ charListLtB b a = true := by
  intro a
  induction a with
  | nil =>
    intro b
    cases b with
    | nil => exact Or.inr (Or.inl rfl)
    | cons y ys => exact Or.inl (by simp [charListLtB])
  | cons x xs ih =>
    intro b
    cases b with
    | nil => exact Or.inr (Or.inr (by simp [charListLtB]))
    | cons y ys =>
      rcases Nat.lt_trichotomy x.toNat y.toNat with hlt | heq | hgt
      · exact Or.inl (by
          simp only [charListLtB, Bool.or_eq_true, Bool.and_eq_true, decide_eq_true_eq]
          exact Or.inl hlt)
      · have hxy : x = y := char_toNat_inj heq
        subst hxy
        rcases ih ys with h | h | h
        · exact Or.inl (by
            simp only [charListLtB, Bool.or_eq_true, Bool.and_eq_true, decide_eq_true_eq]
            exact Or.inr ⟨by simp, h⟩)
        · exact Or.inr (Or.inl (by rw [h]))
        · exact Or.inr (Or.inr (by
            simp only [charListLtB, Bool.or_eq_true, Bool.and_eq_true, decide_eq_true_eq]
            exact Or.inr ⟨by simp, h⟩))
      · exact Or.inr (Or.inr (by
          simp only [charListLtB, Bool.or_eq_true, Bool.and_eq_true, decide_eq_true_eq]
          exact Or.inl hgt))

theorem cle_total : ∀ a b : List Char, charListLeB a b = true ∨ charListLeB b a = true := by
  intro a
  induction a with
  | nil => intro b; exact Or.inl (by simp [charListLeB])
  | cons x xs ih =>
    intro b
    cases b with
    | nil => exact Or.inr (by simp [charListLeB])
    | cons y ys =>
      rcases Nat.lt_trichotomy x.toNat y.toNat with hlt | heq | hgt
      · exact Or.inl (by
          simp only [charListLeB, Bool.or_eq_true, Bool.and_eq_true, decide_eq_true_eq]
          exact Or.inl hlt)
      · rcases ih ys with h | h
        · exact Or.inl (by
            simp only [charListLeB, Bool.or_eq_true, Bool.and_eq_true, decide_eq_true_eq]
            exact Or.inr ⟨heq, h⟩)
        · exact Or.inr (by
            simp only [charListLeB, Bool.or_eq_true, Bool.and_eq_true, decide_eq_true_eq]
            exact Or.inr ⟨heq.symm, h⟩)
      · exact Or.inr (by
          simp only [charListLeB, Bool.or_eq_true, Bool.and_eq_true, decide_eq_true_eq]
          exact Or.inl hgt)

theorem cle_trans : ∀ a b c : List Char,
    charListLeB a b = true → charListLeB b c = true → charListLeB a c = true := by
  intro a
  induction a with
  | nil => intro b c h1 h2; simp [charListLeB]
  | cons x xs ih =>
    intro b c h1 h2
    cases b with
    | nil => simp [charListLeB] at h1
    | cons y ys =>
      cases c with
      | nil => simp [charListLeB] at h2
      | cons z zs =>
        simp only [charListLeB, Bool.or_eq_true, Bool.and_eq_true, decide_eq_true_eq] at h1 h2 ⊢
        rcases h1 with h1 | ⟨he1, h1⟩
        · rcases h2 with h2 | ⟨he2, h2⟩
          · exact Or.inl (by omega)
          · exact Or.inl (by omega)
        · rcases h2 with h2 | ⟨he2, h2⟩
          · exact Or.inl (by omega)
          · exact Or.inr ⟨by omega, ih ys zs h1 h2⟩

theorem cle_antisymm : ∀ a b : List Char,
    charListLeB a b = true → charListLeB b a = true → a = b := by
  intro a
  induction a with
  | nil =>
    intro b h1 h2
    cases b with
    | nil => rfl
    | cons y ys => simp [charListLeB] at h2
  | cons x xs ih =>
    intro b h1 h2
    cases b with
    | nil => simp [charListLeB] at h1
    | cons y ys =>
      simp only [charListLeB, Bool.or_eq_true, Bool.and_eq_true, decide_eq_true_eq] at h1 h2
      rcases h1 with h1 | ⟨he1, h1⟩
      · rcases h2 with h2 | ⟨he2, h2⟩
        · omega
        · omega
      · rcases h2 with h2 | ⟨he2, h2⟩
        · omega
        · rw [char_toNat_inj he1, ih ys h1 h2]

theorem pairLe_total : ∀ x y : String × String, pairLe x y ∨ pairLe y x := by
  intro x y
  simp only [pairLe, pairLeB, strLtB, strLeB, Bool.or_eq_true, Bool.and_eq_true,
    decide_eq_true_eq]
  rcases clt_trichotomy x.1.data y.1.data with h | h | h
  · exact Or.inl (Or.inl h)
  · have hk : x.1 = y.1 := string_data_inj h
    rcases cle_total x.2.data y.2.data with h2 | h2
    · exact Or.inl (Or.inr ⟨hk, h2⟩)
    · exact Or.inr (Or.inr ⟨hk.symm, h2⟩)
  · exact Or.inr (Or.inl h)

theorem pairLe_trans : ∀ x y z : String × String, pairLe x y → pairLe y z → pairLe x z := by
  intro x y z hxy hyz
  simp only [pairLe, pairLeB, strLtB, strLeB, Bool.or_eq_true, Bool.and_eq_true,
    decide_eq_true_eq] at hxy hyz ⊢
  rcases hxy with h1 | ⟨he1, h1⟩
  · rcases hyz with h2 | ⟨he2, h2⟩
    · exact Or.inl (clt_trans _ _ _ h1 h2)
    · exact Or.inl (he2 ▸ h1)
  · rcases hyz with h2 | ⟨he2, h2⟩
    · exact Or.inl (he1 ▸ h2)
    · exact Or.inr ⟨he1.trans he2, cle_trans _ _ _ h1 h2⟩

theorem pairLe_antisymm : ∀ x y : String × String, pairLe x y → pairLe y x → x = y := by
  intro x y hxy hyx
  simp only [pairLe, pairLeB, strLtB, strLeB, Bool.or_eq_true, Bool.and_eq_true,
    decide_eq_true_eq] at hxy hyx
  rcases hxy with h1 | ⟨he1, h1⟩
  · rcases hyx with h2 | ⟨he2, h2⟩
    · exact (clt_not_sym _ _ h1 h2).elim
    · rw [he2] at h1
      exact (clt_not_sym _ _ h1 h1).elim
  · rcases hyx with h2 | ⟨he2, h2⟩
    · rw [he1] at h2
      exact (clt_not_sym _ _ h2 h2).elim
    · exact Prod.ext he1 (string_data_inj (cle_antisymm _ _ h1 h2))

theorem sortedParams_perm_eq {p1 p2 : List (String × String)} (h : p1.Perm p2) :
    sortedParams p1 = sortedParams p2 := by
  haveI : IsTotal (String × String) pairLe := ⟨pairLe_total⟩
  haveI : IsTrans (String × String) pairLe := ⟨pairLe_trans⟩
  haveI : IsAntisymm (String × String) pairLe := ⟨pairLe_antisymm⟩
  exact List.eq_of_perm_of_sorted
    (((List.perm_insertionSort pairLe p1).trans h).trans
      (List.perm_insertionSort pairLe p2).symm)
    (List.sorted_insertionSort pairLe p1)
    (List.sorted_insertionSort pairLe p2)

theorem splitFirst {c : Char} : ∀ (a b as bs : List Char), c ∉ a → c ∉ b →
    a ++ c :: as = b ++ c :: bs → a = b ∧ as = bs := by
  intro a
  induction a with
  | nil =>
    intro b as bs _ hb h
    cases b with
    | nil =>
      simp only [List.nil_append] at h
      injection h with h1 h2
      exact ⟨rfl, h2⟩
    | cons y ys =>
      simp only [List.nil_append, List.cons_append] at h
      injection h with h1 h2
      exact absurd (h1 ▸ List.mem_cons_self y ys) hb
  | cons x xs ih =>
    intro b as bs ha hb h
    cases b with
    | nil =>
      simp only [List.cons_append, List.nil_append] at h
      injection h with h1 h2
      exact absurd (h1 ▸ List.mem_cons_self x xs) ha
    | cons y ys =>
      simp only [List.cons_append] at h
      injection h with h1 h2
      have hxs : c ∉ xs := fun hm => ha (List.mem_cons_of_mem x hm)
      have hys : c ∉ ys := fun hm => hb (List.mem_cons_of_mem y hm)
      obtain ⟨he, ht⟩ := ih ys as bs hxs hys h2
      exact ⟨by rw [h1, he], ht⟩

theorem joinAmp_data : ∀ ss : List String,
    (joinAmp ss).data = joinAmpL (ss.map String.data) := by
  intro ss
  match ss with
  | [] => rfl
  | [x] => rfl
  | x :: y :: rest =>
    show ((x ++ "&") ++ joinAmp (y :: rest)).data = _
    rw [sdata_append, sdata_append, joinAmp_data (y :: rest), List.append_assoc]
    rfl

theorem joinAmpL_inj : ∀ xs ys : List (List Char),
    (∀ x ∈ xs, x ≠ [] ∧ '&' ∉ x) → (∀ y ∈ ys, y ≠ [] ∧ '&' ∉ y) →
    joinAmpL xs = joinAmpL ys → xs = ys := by
  intro xs
  induction xs with
  | nil =>
    intro ys _ hys h
    cases ys with
    | nil => rfl
    | cons y ys' =>
      cases ys' with
      | nil =>
        exact absurd (by rw [joinAmpL] at h; exact h.symm) (hys y (List.mem_cons_self y [])).1
      | cons y2 r =>
        rw [joinAmpL, joinAmpL] at h
        exact absurd h.symm (by simp)
  | cons x xs' ih =>
    intro ys hxs hys h
    cases xs' with
    | nil =>
      cases ys with
      | nil =>
        exact absurd (by rw [joinAmpL] at h; exact h) (hxs x (List.mem_cons_self x [])).1
      | cons y ys' =>
        cases ys' with
        | nil =>
          rw [joinAmpL, joinAmpL] at h
          rw [h]
        | cons y2 r =>
          rw [joinAmpL, joinAmpL] at h
          have hamp : '&' ∈ x := by
            rw [h]
            exact List.mem_append_right y (List.mem_cons_self '&' _)
          exact absurd hamp (hxs x (List.mem_cons_self x [])).2
    | cons x2 r =>
      cases ys with
      | nil =>
        rw [joinAmpL, joinAmpL] at h
        exact absurd h (by simp)
      | cons y ys' =>
        cases ys' with
        | nil =>
          rw [joinAmpL, joinAmpL] at h
          have hamp : '&' ∈ y := by
            rw [← h]
            exact List.mem_append_right x (List.mem_cons_self '&' _)
          exact absurd hamp (hys y (List.mem_cons_self y [])).2
        | cons y2 r' =>
          rw [joinAmpL, joinAmpL] at h
          obtain ⟨he, ht⟩ := splitFirst x y (joinAmpL (x2 :: r)) (joinAmpL (y2 :: r'))
            (hxs x (List.mem_cons_self x _)).2 (hys y (List.mem_cons_self y _)).2 h
          have htail : x2 :: r = y2 :: r' :=
            ih (y2 :: r') (fun a ha => hxs a (List.mem_cons_of_mem x ha))
              (fun a ha => hys a (List.mem_cons_of_mem y ha)) ht
          rw [he, htail]

theorem comp_data (k v : String) : (k ++ "=" ++ v).data = k.data ++ '=' :: v.data := by
  rw [sdata_append, sdata_append, List.append_assoc]
  rfl

theorem map_comp_inj : ∀ l1 l2 : List (String × String),
    (∀ kv ∈ l1, sepFree kv.1 ∧ sepFree kv.2) →
    (∀ kv ∈ l2, sepFree kv.1 ∧ sepFree kv.2) →
    l1.map (fun kv => (kv.1 ++ "=" ++ kv.2).data) =
      l2.map (fun kv => (kv.1 ++ "=" ++ kv.2).data) → l1 = l2 := by
  intro l1
  induction l1 with
  | nil =>
    intro l2 _ _ h
    cases l2 with
    | nil => rfl
    | cons b bs => simp at h
  | cons a as ih =>
    intro l2 hg1 hg2 h
    cases l2 with
    | nil => simp at h
    | cons b bs =>
      simp only [List.map_cons, List.cons.injEq] at h
      obtain ⟨hhead, htail⟩ := h
      rw [comp_data, comp_data] at hhead
      obtain ⟨hga1, hga2⟩ := hg1 a (List.mem_cons_self a as)
      obtain ⟨hgb1, hgb2⟩ := hg2 b (List.mem_cons_self b bs)
      obtain ⟨hk, hv⟩ := splitFirst a.1.data b.1.data a.2.data b.2.data hga1.2 hgb1.2 hhead
      have hab : a = b := Prod.ext (string_data_inj hk) (string_data_inj hv)
      rw [hab, ih bs (fun kv hm => hg1 kv (List.mem_cons_of_mem a hm))
        (fun kv hm => hg2 kv (List.mem_cons_of_mem b hm)) htail]

theorem get_cache_key_inj (m : String) (p1 p2 : List (String × String))
    (h1 : goodParams p1) (h2 : goodParams p2)
    (heq : get_cache_key m p1 = get_cache_key m p2) : p1.Perm p2 := by
  have hd := congrArg String.data heq
  have hform : ∀ p : List (String × String), (get_cache_key m p).data =
      m.data ++ ':' ::
        joinAmpL (((sortedParams p).map (fun kv => kv.1 ++ "=" ++ kv.2)).map String.data) := by
    intro p
    show (m ++ ":" ++ joinAmp ((sortedParams p).map (fun kv => kv.1 ++ "=" ++ kv.2))).data = _
    rw [sdata_append, sdata_append, List.append_assoc, joinAmp_data]
    rfl
  rw [hform, hform] at hd
  have hcons := List.append_cancel_left hd
  injection hcons with hhead hj
  have hgood : ∀ (p : List (String × String)), goodParams p →
      ∀ x ∈ ((sortedParams p).map (fun kv => kv.1 ++ "=" ++ kv.2)).map String.data,
        x ≠ [] ∧ '&' ∉ x := by
    intro p hp x hx
    simp only [List.map_map, List.mem_map, Function.comp] at hx
    obtain ⟨kv, hkv, rfl⟩ := hx
    have hkvp : kv ∈ p := by simpa [sortedParams] using hkv
    obtain ⟨hk, hv⟩ := hp kv hkvp
    constructor
    · rw [comp_data]
      simp
    · rw [comp_data]
      intro hmem
      rcases List.mem_append.mp hmem with hm | hm
      · exact hk.1 hm
      · rcases List.mem_cons.mp hm with he | hm
        · exact absurd he (by decide)
        · exact hv.1 hm
  have hmaps := joinAmpL_inj _ _ (hgood p1 h1) (hgood p2 h2) hj
  simp only [List.map_map, Function.comp] at hmaps
  have hsorted : sortedParams p1 = sortedParams p2 := by
    refine map_comp_inj _ _ ?_ ?_ hmaps
    · intro kv hkv
      exact h1 kv (by simpa [sortedParams] using hkv)
    · intro kv hkv
      exact h2 kv (by simpa [sortedParams] using hkv)
  have hperm1 : (sortedParams p1).Perm p1 := List.perm_insertionSort pairLe p1
  have hperm2 : (sortedParams p2).Perm p2 := List.perm_insertionSort pairLe p2
  exact hperm1.symm.trans (hsorted ▸ hperm2)

/-- C7 (amended): the cache key is order-independent — parameter maps with
identical key/value pairs in different insertion orders always produce
identical keys — and, provided keys and values contain neither of the
separator characters `&` and `=` that the serialization inserts, parameter
maps that differ in at least one pair produce different keys. Without that
restriction, distinct maps can collide (see the counterexample). -/
theorem cache_key_determinism (m : String) (p1 p2 : List (String × String)) :
    (p1.Perm p2 → get_cache_key m p1 = get_cache_key m p2) ∧
    (goodParams p1 → goodParams p2 → ¬ p1.Perm p2 →
      get_cache_key m p1 ≠ get_cache_key m p2) := by
  constructor
  · intro h
    unfold get_cache_key
    rw [sortedParams_perm_eq h]
  · intro h1 h2 hnp heq
    exact hnp (get_cache_key_inj m p1 p2 h1 h2 heq)

theorem cache_key_determinism_witness :
    get_cache_key "m" [("a", "1"), ("b", "2")] = get_cache_key "m" [("b", "2"), ("a", "1")] ∧
    get_cache_key "m" [("a", "1")] ≠ get_cache_key "m" [("a", "2")] :=
  ⟨(cache_key_determinism "m" [("a", "1"), ("b", "2")] [("b", "2"), ("a", "1")]).1 (by decide),
   (cache_key_determinism "m" [("a", "1")] [("a", "2")]).2 (by decide) (by decide) (by decide)⟩

/-- C7 counterexample: value strings may contain the separator characters
the serialization itself uses, so two parameter maps over the same keys
`a`, `b` that differ in both values — `x&b=y`/`z` versus `x`/`y&b=z` —
serialize to the same cache key `m:a=x&b=y&b=z`. -/
theorem cache_key_value_collision :
    get_cache_key "m" [("a", "x&b=y"), ("b", "z")] =
      get_cache_key "m" [("a", "x"), ("b", "y&b=z")] ∧
    [("a", "x&b=y"), ("b", "z")].lookup "a" ≠ [("a", "x"), ("b", "y&b=z")].lookup "a" := by
  constructor
  · decide
  · decide
